import Mathlib

/-!
Verification of the drift-comparison engine (`compare_resources` in
`src/resource_comparison.py`) of the tform-snow-drift repository.

The engine is a pure function from a declared-state document (Terraform
state), an observed-resource list (Snowflake), a resource-type name, an
attribute list and a synonym table to a list of drift records.

Shallow-embedding conventions:
- A resource record (a Python dict mapping attribute name to scalar-or-null)
  is an association list `List (String × Option String)`; `Option.none` as a
  value models Python `None`, an absent entry models a missing key.  Scalars
  are modelled by their string form (the code only ever uses `str(v).upper()`).
- A missing `resources` key in the state dict is `Option.none`; resource
  groups that are not dicts or lack `type`/`instances` are
  `ResGroup.malformed`; instances that are not dicts or lack `attributes`
  are `Instance.malformed` (the code skips both kinds silently).
- Dictionary-key values can be Python `None` (a record whose key field is
  present with value `None`), so the key maps are keyed by `Option String`.
- The iteration order over the key-set union (a Python `set`, whose order is
  unspecified) is fixed here deterministically: Terraform-map keys first in
  insertion order, then remaining Snowflake-map keys.
- The `ValueError`-then-`RuntimeError("Invalid input: ...")` path of the code
  is modelled as `Except.error (CompError.invalidInput ...)`; the type checks
  that are vacuous in a typed embedding (is-dict, is-list) are omitted, the
  contentful ones (non-empty resource name, non-empty attribute list of
  non-empty strings) are kept.
-/

/-- A resource record: Python dict from attribute name to scalar-or-null. -/
abbrev Rec := List (String × Option String)

/-- A Terraform state instance: either malformed (not a dict, or lacking the
`attributes` key — skipped by the extraction loop) or a record of attributes. -/
inductive Instance where
  | malformed : Instance
  | ok (attributes : Rec) : Instance
deriving DecidableEq, Repr

/-- A declared resource group in the Terraform state: either malformed (not a
dict, or missing the `type` or `instances` key — skipped) or a typed group of
instances. -/
inductive ResGroup where
  | malformed : ResGroup
  | group (type_ : String) (instances : List Instance) : ResGroup
deriving DecidableEq, Repr

/-- The Terraform state document; `resources = Option.none` models a state
dict with no `resources` key (the code reads it with `.get("resources", [])`). -/
structure TfState where
  resources : Option (List ResGroup)
deriving DecidableEq, Repr

/-- A drift record, one of the two dict shapes the code appends:
presence drift `{resource, name, Snowflake: bool, Terraform: bool}` and
attribute drift `{resource, name, attribute, Snowflake: str, Terraform: str}`. -/
inductive Drift where
  | presence (resource : String) (name : Option String) (snowflake terraform : Bool)
  | attribute (resource : String) (name : Option String) (attr : String)
      (snowflake terraform : String)
deriving DecidableEq, Repr

/-- The engine's error kind (the spec calls it `InvalidInput`; the code raises
`ValueError` re-raised as `RuntimeError("Invalid input: ...")`). -/
inductive CompError where
  | invalidInput (msg : String)
deriving DecidableEq, Repr

/-- Synonym sub-table for one (resource type, attribute): raw upper-cased
value to canonical value. -/
abbrev SynAttrTable := List (String × String)

/-- The full synonym table: resource type → lower-cased attribute → sub-table. -/
abbrev SynTable := List (String × List (String × SynAttrTable))

deriving instance DecidableEq for Except

/-- Python `s.lower()` (ASCII case range; the identifiers involved are ASCII). -/
def strLower (s : String) : String := ⟨s.data.map Char.toLower⟩

/-- Python `str(v).upper()` on a string scalar. -/
def strUpper (s : String) : String := ⟨s.data.map Char.toUpper⟩

/-- Python `not s.strip()`: the string is empty or all whitespace. -/
def stripIsEmpty (s : String) : Bool := s.data.all Char.isWhitespace

/-- Python `d[k]` presence-aware lookup on a record: `Option.none` when the
key is absent, `Option.some v` when present (v itself may be Python None). -/
def dictFind (r : Rec) (k : String) : Option (Option String) :=
  (r.find? (fun p => p.1 == k)).map Prod.snd

/-- Python `d.get(k)`: collapses an absent key and a present-but-None value
to None. -/
def pyGet (r : Rec) (k : String) : Option String :=
  (dictFind r k).getD Option.none

/-- Python `d.get(k, dflt)` on a string-keyed association list. -/
def dictGetD {α : Type} (d : List (String × α)) (k : String) (dflt : α) : α :=
  ((d.find? (fun p => p.1 == k)).map Prod.snd).getD dflt

/-- Line 41 of the source: `tf_resource_type = f"snowflake_{resource.lower()}"`. -/
def tf_resource_type (resource : String) : String :=
  "snowflake_" ++ strLower resource

/-- Line 52: `key_field = "login_name" if tf_resource_type == "snowflake_user"
else "name"`. -/
def key_field (resource : String) : String :=
  if tf_resource_type resource == "snowflake_user" then "login_name" else "name"

/-- Line 49, inner comprehension filter: keep only well-formed instances and
take their `attributes` record. -/
def instance_attributes : Instance → Option Rec
  | Instance.malformed => Option.none
  | Instance.ok attrs => Option.some attrs

/-- Lines 46-49, loop body for one resource group: skip malformed groups and
groups of a different type, flatten the matching group's instances. -/
def group_resources (tag : String) : ResGroup → List Rec
  | ResGroup.malformed => []
  | ResGroup.group t instances =>
      if t == tag then instances.filterMap instance_attributes else []

/-- Lines 44-49: filter the state's resource groups by type tag and flatten
the well-formed instances' attribute records. -/
def extract_tf_resources (tf_state : TfState) (tag : String) : List Rec :=
  (tf_state.resources.getD []).flatMap (group_resources tag)

/-- Python-dict insertion: replace the value in place when the key exists
(keys keep their first-insertion position), append otherwise. -/
def insertReplace (m : List (Option String × Rec)) (k : Option String) (r : Rec) :
    List (Option String × Rec) :=
  match m with
  | [] => [(k, r)]
  | (k', r') :: rest =>
      if k' == k then (k, r) :: rest else (k', r') :: insertReplace rest k r

/-- One step of the dict comprehension of lines 53-54: skip a record lacking
the key field, insert it under its key value otherwise. -/
def buildStep (kf : String) (m : List (Option String × Rec)) (r : Rec) :
    List (Option String × Rec) :=
  match dictFind r kf with
  | Option.none => m
  | Option.some k => insertReplace m k r

/-- Lines 53-54: `{res[key_field]: res for res in ... if key_field in res}` —
records lacking the key field are skipped, later records overwrite earlier
ones with the same key. -/
def buildMap (kf : String) (rs : List Rec) : List (Option String × Rec) :=
  rs.foldl (buildStep kf) []

/-- Lookup in a key map (`res_name in tf_res_map` / `tf_res_map[res_name]`). -/
def lookupKey : List (Option String × Rec) → Option String → Option Rec
  | [], _ => Option.none
  | (k', r) :: rest, k => if k' == k then Option.some r else lookupKey rest k

/-- Line 57: `set(tf_res_map.keys()) | set(sf_res_map.keys())`, with the
(unspecified) set order fixed as: first list's keys, then the second's keys
not already present. -/
def unionKeys (ks ks' : List (Option String)) : List (Option String) :=
  ks ++ ks'.filter (fun k => decide (k ∉ ks))

/-- Lines 78-79: `str(v).upper() if v is not None else "NULL"`. -/
def valueStr : Option String → String
  | Option.none => "NULL"
  | Option.some v => strUpper v

/-- Line 80: `synonyms.get(resource, {}).get(attr.lower(), {})`. -/
def synonyms_for (synonyms : SynTable) (resource attr : String) : SynAttrTable :=
  dictGetD (dictGetD synonyms resource []) (strLower attr) []

/-- Lines 81-82: `synonyms_for_attr.get(value_str, value_str)` — canonicalize
an upper-cased value through the sub-table, identity when no entry. -/
def canon (synonyms : SynTable) (resource attr v : String) : String :=
  dictGetD (synonyms_for synonyms resource attr) v v

/-- Lines 76-90, body of the per-attribute loop: compare the canonical forms
and, when they differ, emit an attribute drift carrying the pre-synonym
upper-cased strings (Snowflake value first in the dict, stored here as the
`snowflake` field). -/
def check_attr (resource tag : String) (synonyms : SynTable) (res_name : Option String)
    (tf_res sf_res : Rec) (attr : String) : Option Drift :=
  if canon synonyms resource attr (valueStr (pyGet tf_res attr))
      ≠ canon synonyms resource attr (valueStr (pyGet sf_res attr)) then
    Option.some (Drift.attribute tag res_name attr
      (valueStr (pyGet sf_res attr)) (valueStr (pyGet tf_res attr)))
  else
    Option.none

/-- Lines 58-90, body of the per-key loop: a key missing from the Terraform
map yields a Snowflake-only presence drift, a key missing from the Snowflake
map yields a Terraform-only presence drift, a key present in both is compared
attribute by attribute. -/
def compare_key (resource tag : String) (attributes : List String) (synonyms : SynTable)
    (tf_map sf_map : List (Option String × Rec)) (res_name : Option String) : List Drift :=
  match lookupKey tf_map res_name with
  | Option.none => [Drift.presence tag res_name true false]
  | Option.some tf_res =>
      match lookupKey sf_map res_name with
      | Option.none => [Drift.presence tag res_name false true]
      | Option.some sf_res =>
          attributes.filterMap (check_attr resource tag synonyms res_name tf_res sf_res)

/-- The Terraform key map built by the engine (lines 44-53). -/
def tf_res_map (tf_state : TfState) (resource : String) : List (Option String × Rec) :=
  buildMap (key_field resource) (extract_tf_resources tf_state (tf_resource_type resource))

/-- The Snowflake key map built by the engine (line 54). -/
def sf_res_map (sf_resources : List Rec) (resource : String) : List (Option String × Rec) :=
  buildMap (key_field resource) sf_resources

/-- `compare_resources` (lines 27-99): validate the contentful input shape,
build both key maps, and fold the per-key comparison over the key-set union. -/
def compare_resources (tf_state : TfState) (sf_resources : List Rec) (resource : String)
    (attributes : List String) (synonyms : SynTable) : Except CompError (List Drift) :=
  if stripIsEmpty resource then
    Except.error (CompError.invalidInput "resource must be a non-empty string")
  else if attributes.isEmpty || attributes.any (fun a => stripIsEmpty a) then
    Except.error (CompError.invalidInput
      "attributes must be a non-empty list of non-empty strings")
  else
    let tag := tf_resource_type resource
    let tf_map := tf_res_map tf_state resource
    let sf_map := sf_res_map sf_resources resource
    Except.ok ((unionKeys (tf_map.map Prod.fst) (sf_map.map Prod.fst)).flatMap
      (compare_key resource tag attributes synonyms tf_map sf_map))

/-- The key (`name`) a drift record reports. -/
def driftName : Drift → Option String
  | Drift.presence _ n _ _ => n
  | Drift.attribute _ n _ _ _ => n

/-- Is this a presence-drift record? -/
def isPresence : Drift → Bool
  | Drift.presence _ _ _ _ => true
  | Drift.attribute _ _ _ _ _ => false

/-- Is this an attribute-drift record for key `k` and attribute `a`? -/
def isAttrAt (k : Option String) (a : String) : Drift → Bool
  | Drift.presence _ _ _ _ => false
  | Drift.attribute _ n a' _ _ => n == k && a' == a

/-! ### Basic properties of the key maps -/

theorem lookupKey_insertReplace (m : List (Option String × Rec)) (k : Option String)
    (r : Rec) (k' : Option String) :
    lookupKey (insertReplace m k r) k'
      = if k' = k then Option.some r else lookupKey m k' := by
  induction m with
  | nil =>
      rcases eq_or_ne k' k with h | h
      · subst h
        simp [insertReplace, lookupKey]
      · have hb : (k == k') = false := beq_eq_false_iff_ne.mpr (Ne.symm h)
        simp [insertReplace, lookupKey, hb, h]
  | cons p rest ih =>
      obtain ⟨k₁, r₁⟩ := p
      rcases eq_or_ne k₁ k with h1 | h1
      · subst h1
        rcases eq_or_ne k' k₁ with h2 | h2
        · subst h2
          simp [insertReplace, lookupKey]
        · have hb : (k₁ == k') = false := beq_eq_false_iff_ne.mpr (Ne.symm h2)
          simp [insertReplace, lookupKey, hb, h2]
      · have hb1 : (k₁ == k) = false := beq_eq_false_iff_ne.mpr h1
        rcases eq_or_ne k' k₁ with h2 | h2
        · subst h2
          have hne : ¬ k' = k := fun hc => h1 (hc ▸ rfl)
          simp [insertReplace, lookupKey, hb1, hne]
        · have hb2 : (k₁ == k') = false := beq_eq_false_iff_ne.mpr (Ne.symm h2)
          simp [insertReplace, lookupKey, hb1, hb2, ih]

theorem mem_fst_insertReplace (m : List (Option String × Rec)) (k : Option String)
    (r : Rec) (k' : Option String) :
    k' ∈ (insertReplace m k r).map Prod.fst ↔ k' = k ∨ k' ∈ m.map Prod.fst := by
  induction m with
  | nil => simp [insertReplace]
  | cons p rest ih =>
      obtain ⟨k₁, r₁⟩ := p
      rcases eq_or_ne k₁ k with h1 | h1
      · subst h1
        simp only [insertReplace, beq_self_eq_true, if_true, List.map_cons,
          List.mem_cons]
        tauto
      · have hb1 : (k₁ == k) = false := beq_eq_false_iff_ne.mpr h1
        simp only [insertReplace, hb1, Bool.false_eq_true, if_false, List.map_cons,
          List.mem_cons, ih]
        tauto

theorem nodup_fst_insertReplace (m : List (Option String × Rec)) (k : Option String)
    (r : Rec) (h : (m.map Prod.fst).Nodup) :
    ((insertReplace m k r).map Prod.fst).Nodup := by
  induction m with
  | nil => simp [insertReplace]
  | cons p rest ih =>
      obtain ⟨k₁, r₁⟩ := p
      simp only [List.map_cons, List.nodup_cons] at h
      rcases eq_or_ne k₁ k with h1 | h1
      · subst h1
        simp only [insertReplace, beq_self_eq_true, if_true, List.map_cons,
          List.nodup_cons]
        exact h
      · have hb1 : (k₁ == k) = false := beq_eq_false_iff_ne.mpr h1
        simp only [insertReplace, hb1, Bool.false_eq_true, if_false, List.map_cons,
          List.nodup_cons]
        refine ⟨fun hc => ?_, ih h.2⟩
        rw [mem_fst_insertReplace] at hc
        rcases hc with hc | hc
        · exact h1 (hc ▸ rfl)
        · exact h.1 hc

theorem lookupKey_foldl_buildStep (kf : String) (rs : List Rec) (k : Option String) :
    ∀ m : List (Option String × Rec),
      lookupKey (rs.foldl (buildStep kf) m) k
      = ((rs.filter (fun r => dictFind r kf == Option.some k)).getLast?).or
          (lookupKey m k) := by
  induction rs with
  | nil => intro m; simp
  | cons r rest ih =>
      intro m
      simp only [List.foldl_cons, List.filter_cons]
      rcases hf : dictFind r kf with _ | k₁
      · have hstep : buildStep kf m r = m := by simp [buildStep, hf]
        rw [hstep, ih m]
        simp [beq_iff_eq]
      · have hstep : buildStep kf m r = insertReplace m k₁ r := by
          simp [buildStep, hf]
        rcases eq_or_ne k₁ k with h1 | h1
        · subst h1
          have hpos : (Option.some k₁ == Option.some k₁) = true := beq_self_eq_true _
          rw [hstep, ih, hpos, if_pos rfl]
          rcases hLast : (rest.filter
              (fun r => dictFind r kf == Option.some k₁)).getLast? with _ | r'
          · have hnil := List.getLast?_eq_none_iff.mp hLast
            rw [hnil]
            simp [lookupKey_insertReplace]
          · have hne : rest.filter (fun r => dictFind r kf == Option.some k₁) ≠ [] := by
              intro hc
              rw [hc] at hLast
              simp at hLast
            obtain ⟨x, xs, hFilter⟩ := List.exists_cons_of_ne_nil hne
            rw [Option.or_some, hFilter, List.getLast?_cons_cons]
            rw [hFilter] at hLast
            rw [hLast, Option.or_some]
        · have hneg : (Option.some k₁ == Option.some k) = false := by
            simp [beq_iff_eq, h1]
          rw [hstep, ih, hneg, if_neg (by simp), lookupKey_insertReplace,
            if_neg (Ne.symm h1)]

theorem lookupKey_buildMap (kf : String) (rs : List Rec) (k : Option String) :
    lookupKey (buildMap kf rs) k
      = (rs.filter (fun r => dictFind r kf == Option.some k)).getLast? := by
  rw [buildMap, lookupKey_foldl_buildStep]
  rcases (rs.filter (fun r => dictFind r kf == Option.some k)).getLast? with _ | r
  · rfl
  · rfl

theorem nodup_fst_buildMap (kf : String) (rs : List Rec) :
    ((buildMap kf rs).map Prod.fst).Nodup := by
  rw [buildMap]
  have h : ∀ m : List (Option String × Rec), (m.map Prod.fst).Nodup →
      ((rs.foldl (buildStep kf) m).map Prod.fst).Nodup := by
    induction rs with
    | nil => intro m hm; simpa using hm
    | cons r rest ih =>
        intro m hm
        simp only [List.foldl_cons]
        rcases hf : dictFind r kf with _ | k₁
        · have hstep : buildStep kf m r = m := by simp [buildStep, hf]
          rw [hstep]
          exact ih m hm
        · have hstep : buildStep kf m r = insertReplace m k₁ r := by
            simp [buildStep, hf]
          rw [hstep]
          exact ih _ (nodup_fst_insertReplace m k₁ r hm)
  exact h [] (by simp)

theorem lookupKey_eq_none_iff (m : List (Option String × Rec)) (k : Option String) :
    lookupKey m k = Option.none ↔ k ∉ m.map Prod.fst := by
  induction m with
  | nil => simp [lookupKey]
  | cons p rest ih =>
      obtain ⟨k₁, r₁⟩ := p
      rcases eq_or_ne k₁ k with h1 | h1
      · subst h1
        simp [lookupKey]
      · have hb : (k₁ == k) = false := beq_eq_false_iff_ne.mpr h1
        simp [lookupKey, hb, ih, Ne.symm h1]

theorem lookupKey_isSome_iff (m : List (Option String × Rec)) (k : Option String) :
    (∃ r, lookupKey m k = Option.some r) ↔ k ∈ m.map Prod.fst := by
  constructor
  · rintro ⟨r, hr⟩
    by_contra hc
    rw [(lookupKey_eq_none_iff m k).mpr hc] at hr
    exact Option.noConfusion hr
  · intro hmem
    rcases h : lookupKey m k with _ | r
    · exact absurd ((lookupKey_eq_none_iff m k).mp h) (not_not_intro hmem)
    · exact ⟨r, rfl⟩

/-! ### Basic properties of the key-set union -/

theorem mem_unionKeys (ks ks' : List (Option String)) (k : Option String) :
    k ∈ unionKeys ks ks' ↔ k ∈ ks ∨ k ∈ ks' := by
  simp only [unionKeys, List.mem_append, List.mem_filter, decide_eq_true_eq]
  constructor
  · rintro (h | ⟨h, _⟩)
    · exact Or.inl h
    · exact Or.inr h
  · rintro (h | h)
    · exact Or.inl h
    · by_cases hks : k ∈ ks
      · exact Or.inl hks
      · exact Or.inr ⟨h, hks⟩

theorem nodup_unionKeys (ks ks' : List (Option String))
    (h : ks.Nodup) (h' : ks'.Nodup) : (unionKeys ks ks').Nodup := by
  refine List.Nodup.append h (List.Nodup.filter _ h') ?_
  rw [List.disjoint_left]
  intro a ha hc
  rcases List.mem_filter.mp hc with ⟨_, hcond⟩
  rw [decide_eq_true_eq] at hcond
  exact hcond ha

/-! ### Properties of the per-attribute and per-key comparison -/

theorem check_attr_eq_some_iff (resource tag : String) (syn : SynTable)
    (k : Option String) (tf_res sf_res : Rec) (a : String) (d : Drift) :
    check_attr resource tag syn k tf_res sf_res a = Option.some d ↔
      (canon syn resource a (valueStr (pyGet tf_res a))
          ≠ canon syn resource a (valueStr (pyGet sf_res a)) ∧
        d = Drift.attribute tag k a (valueStr (pyGet sf_res a))
              (valueStr (pyGet tf_res a))) := by
  rw [check_attr]
  split
  · rename_i h
    simp only [Option.some.injEq]
    constructor
    · intro hd
      exact ⟨h, hd.symm⟩
    · intro hd
      exact hd.2.symm
  · rename_i h
    simp only [reduceCtorEq, false_iff, not_and]
    intro hc
    exact absurd hc h

theorem driftName_compare_key (resource tag : String) (attrs : List String)
    (syn : SynTable) (tm sm : List (Option String × Rec)) (k : Option String) :
    ∀ d ∈ compare_key resource tag attrs syn tm sm k, driftName d = k := by
  intro d hd
  rw [compare_key] at hd
  rcases htm : lookupKey tm k with _ | tf_res
  · rw [htm] at hd
    simp only [List.mem_singleton] at hd
    subst hd
    rfl
  · rw [htm] at hd
    rcases hsm : lookupKey sm k with _ | sf_res
    · rw [hsm] at hd
      simp only [List.mem_singleton] at hd
      subst hd
      rfl
    · rw [hsm] at hd
      rcases List.mem_filterMap.mp hd with ⟨a, _, ha⟩
      rcases (check_attr_eq_some_iff _ _ _ _ _ _ _ _).mp ha with ⟨_, hdef⟩
      subst hdef
      rfl

theorem compare_key_presence_or_attrs (resource tag : String) (attrs : List String)
    (syn : SynTable) (tm sm : List (Option String × Rec)) (k : Option String) :
    (∃ s t : Bool, s = !t ∧
        compare_key resource tag attrs syn tm sm k = [Drift.presence tag k s t]) ∨
    (∀ d ∈ compare_key resource tag attrs syn tm sm k, isPresence d = false) := by
  rw [compare_key]
  rcases lookupKey tm k with _ | tf_res
  · exact Or.inl ⟨true, false, rfl, rfl⟩
  · rcases lookupKey sm k with _ | sf_res
    · exact Or.inl ⟨false, true, rfl, rfl⟩
    · refine Or.inr fun d hd => ?_
      rcases List.mem_filterMap.mp hd with ⟨a, _, ha⟩
      rcases (check_attr_eq_some_iff _ _ _ _ _ _ _ _).mp ha with ⟨_, hdef⟩
      subst hdef
      rfl

/-! ### Decomposition of the engine's output -/

theorem compare_resources_ok_iff (tf_state : TfState) (sf_resources : List Rec)
    (resource : String) (attributes : List String) (syn : SynTable)
    (drifts : List Drift) :
    compare_resources tf_state sf_resources resource attributes syn
        = Except.ok drifts ↔
      stripIsEmpty resource = false ∧
      (attributes.isEmpty || attributes.any (fun a => stripIsEmpty a)) = false ∧
      drifts = (unionKeys ((tf_res_map tf_state resource).map Prod.fst)
          ((sf_res_map sf_resources resource).map Prod.fst)).flatMap
        (compare_key resource (tf_resource_type resource) attributes syn
          (tf_res_map tf_state resource) (sf_res_map sf_resources resource)) := by
  by_cases h1 : stripIsEmpty resource = true
  · simp [compare_resources, h1]
  · have h1f : stripIsEmpty resource = false := by simpa using h1
    by_cases h2 : (attributes.isEmpty || attributes.any (fun a => stripIsEmpty a)) = true
    · simp [compare_resources, h1f, h2]
    · have h2f : (attributes.isEmpty || attributes.any (fun a => stripIsEmpty a))
          = false := by simpa using h2
      simp only [compare_resources, h1f, h2f, Bool.false_eq_true, if_false,
        Except.ok.injEq, true_and]
      exact ⟨fun h => h.symm, fun h => h.symm⟩

theorem filter_driftName_flatMap (f : Option String → List Drift) :
    ∀ keys : List (Option String), keys.Nodup →
      (∀ k' ∈ keys, ∀ d ∈ f k', driftName d = k') →
      ∀ k : Option String,
        (keys.flatMap f).filter (fun d => driftName d == k)
          = if k ∈ keys then f k else [] := by
  intro keys
  induction keys with
  | nil => intro _ _ k; simp
  | cons k₀ rest ih =>
      intro hnd hname k
      rw [List.flatMap_cons, List.filter_append]
      rcases List.nodup_cons.mp hnd with ⟨hk₀, hrest⟩
      rcases eq_or_ne k k₀ with h | h
      · subst h
        have h1 : (f k).filter (fun d => driftName d == k) = f k :=
          List.filter_eq_self.mpr fun d hd => by
            rw [hname k (List.mem_cons_self _ _) d hd]
            exact beq_self_eq_true k
        have h2 : (rest.flatMap f).filter (fun d => driftName d == k) = [] := by
          rw [ih hrest (fun k' hk' => hname k' (List.mem_cons_of_mem _ hk')) k]
          simp [hk₀]
        rw [h1, h2]
        simp
      · have h1 : (f k₀).filter (fun d => driftName d == k) = [] := by
          rw [List.filter_eq_nil_iff]
          intro d hd
          rw [hname k₀ (List.mem_cons_self _ _) d hd]
          simp [beq_iff_eq, Ne.symm h]
        rw [h1, ih hrest (fun k' hk' => hname k' (List.mem_cons_of_mem _ hk')) k]
        simp [List.mem_cons, h]

theorem compare_key_of_tf_none (resource tag : String) (attrs : List String)
    (syn : SynTable) (tm sm : List (Option String × Rec)) (k : Option String)
    (htm : lookupKey tm k = Option.none) :
    compare_key resource tag attrs syn tm sm k
      = [Drift.presence tag k true false] := by
  rw [compare_key, htm]

theorem compare_key_of_sf_none (resource tag : String) (attrs : List String)
    (syn : SynTable) (tm sm : List (Option String × Rec)) (k : Option String)
    (tf_res : Rec) (htm : lookupKey tm k = Option.some tf_res)
    (hsm : lookupKey sm k = Option.none) :
    compare_key resource tag attrs syn tm sm k
      = [Drift.presence tag k false true] := by
  rw [compare_key, htm, hsm]

theorem compare_key_of_both (resource tag : String) (attrs : List String)
    (syn : SynTable) (tm sm : List (Option String × Rec)) (k : Option String)
    (tf_res sf_res : Rec) (htm : lookupKey tm k = Option.some tf_res)
    (hsm : lookupKey sm k = Option.some sf_res) :
    compare_key resource tag attrs syn tm sm k
      = attrs.filterMap (check_attr resource tag syn k tf_res sf_res) := by
  rw [compare_key, htm, hsm]

theorem filter_drifts_eq (tf_state : TfState) (sf_resources : List Rec)
    (resource : String) (attributes : List String) (syn : SynTable)
    (drifts : List Drift)
    (hok : compare_resources tf_state sf_resources resource attributes syn
      = Except.ok drifts) (k : Option String) :
    drifts.filter (fun d => driftName d == k)
      = if k ∈ unionKeys ((tf_res_map tf_state resource).map Prod.fst)
            ((sf_res_map sf_resources resource).map Prod.fst)
        then compare_key resource (tf_resource_type resource) attributes syn
          (tf_res_map tf_state resource) (sf_res_map sf_resources resource) k
        else [] := by
  rcases (compare_resources_ok_iff _ _ _ _ _ _).mp hok with ⟨_, _, hd⟩
  subst hd
  exact filter_driftName_flatMap _ _
    (nodup_unionKeys _ _ (nodup_fst_buildMap _ _) (nodup_fst_buildMap _ _))
    (fun k' _ d hd => driftName_compare_key _ _ _ _ _ _ k' d hd) k

theorem mem_drifts_iff (tf_state : TfState) (sf_resources : List Rec)
    (resource : String) (attributes : List String) (syn : SynTable)
    (drifts : List Drift)
    (hok : compare_resources tf_state sf_resources resource attributes syn
      = Except.ok drifts) (d : Drift) :
    d ∈ drifts ↔ ∃ k ∈ unionKeys ((tf_res_map tf_state resource).map Prod.fst)
        ((sf_res_map sf_resources resource).map Prod.fst),
      d ∈ compare_key resource (tf_resource_type resource) attributes syn
        (tf_res_map tf_state resource) (sf_res_map sf_resources resource) k := by
  rcases (compare_resources_ok_iff _ _ _ _ _ _).mp hok with ⟨_, _, hd⟩
  subst hd
  exact List.mem_flatMap

/-! ## Claim theorems -/

/-- Claim C1: for every key appearing in the union of the declared-by-key and
observed-by-key maps, compare_resources produces exactly one outcome: there is
at most one presence-drift record for any (resource-type, key) pair, and a key
with a presence-drift record never also has an attribute-drift record (keys
with neither have no records at all, a full match). -/
theorem compare_resources_per_key_exactly_one_outcome (tf_state : TfState)
    (sf_resources : List Rec) (resource : String) (attributes : List String)
    (syn : SynTable) (drifts : List Drift)
    (hok : compare_resources tf_state sf_resources resource attributes syn
      = Except.ok drifts) (k : Option String) :
    drifts.countP (fun d => isPresence d && (driftName d == k)) ≤ 1 ∧
    ((∃ d ∈ drifts, isPresence d = true ∧ driftName d = k) →
      ¬ ∃ d ∈ drifts, isPresence d = false ∧ driftName d = k) := by
  have hS := filter_drifts_eq tf_state sf_resources resource attributes syn drifts hok k
  have hcount : drifts.countP (fun d => isPresence d && (driftName d == k))
      = (drifts.filter (fun d => driftName d == k)).countP isPresence := by
    rw [List.countP_filter]
  constructor
  · rw [hcount, hS]
    by_cases hmem : k ∈ unionKeys ((tf_res_map tf_state resource).map Prod.fst)
        ((sf_res_map sf_resources resource).map Prod.fst)
    · rw [if_pos hmem]
      rcases compare_key_presence_or_attrs resource (tf_resource_type resource)
          attributes syn (tf_res_map tf_state resource)
          (sf_res_map sf_resources resource) k with ⟨s, t, _, heq⟩ | hall
      · rw [heq]
        exact (List.countP_le_length _).trans (by simp)
      · rw [List.countP_eq_zero.mpr fun d hd => by rw [hall d hd]; exact Bool.false_ne_true]
        exact Nat.zero_le 1
    · rw [if_neg hmem]
      exact Nat.zero_le 1
  · rintro ⟨d₁, hd₁, hp₁, hn₁⟩ ⟨d₂, hd₂, hp₂, hn₂⟩
    have hm₁ : d₁ ∈ drifts.filter (fun d => driftName d == k) :=
      List.mem_filter.mpr ⟨hd₁, by rw [hn₁]; exact beq_self_eq_true k⟩
    have hm₂ : d₂ ∈ drifts.filter (fun d => driftName d == k) :=
      List.mem_filter.mpr ⟨hd₂, by rw [hn₂]; exact beq_self_eq_true k⟩
    rw [hS] at hm₁ hm₂
    by_cases hmem : k ∈ unionKeys ((tf_res_map tf_state resource).map Prod.fst)
        ((sf_res_map sf_resources resource).map Prod.fst)
    · rw [if_pos hmem] at hm₁ hm₂
      rcases compare_key_presence_or_attrs resource (tf_resource_type resource)
          attributes syn (tf_res_map tf_state resource)
          (sf_res_map sf_resources resource) k with ⟨s, t, _, heq⟩ | hall
      · rw [heq] at hm₂
        have h2 := List.mem_singleton.mp hm₂
        subst h2
        simp [isPresence] at hp₂
      · rw [hall d₁ hm₁] at hp₁
        exact Bool.noConfusion hp₁
    · rw [if_neg hmem] at hm₁
      exact absurd hm₁ (List.not_mem_nil d₁)

/-- Witness for C1 at a concrete run: declared has "wh1", observed is empty,
so the run yields a single Terraform-only presence drift for key "wh1". -/
theorem compare_resources_per_key_exactly_one_outcome_witness :
    ([Drift.presence "snowflake_warehouse" (Option.some "wh1") false true].countP
        (fun d => isPresence d && (driftName d == Option.some "wh1")) ≤ 1) ∧
    ((∃ d ∈ [Drift.presence "snowflake_warehouse" (Option.some "wh1") false true],
        isPresence d = true ∧ driftName d = Option.some "wh1") →
      ¬ ∃ d ∈ [Drift.presence "snowflake_warehouse" (Option.some "wh1") false true],
        isPresence d = false ∧ driftName d = Option.some "wh1") :=
  compare_resources_per_key_exactly_one_outcome
    ⟨Option.some [ResGroup.group "snowflake_warehouse"
        [Instance.ok [("name", Option.some "wh1")]]]⟩ [] "warehouse" ["size"] []
    [Drift.presence "snowflake_warehouse" (Option.some "wh1") false true]
    (by decide) (Option.some "wh1")

theorem compare_key_presence_bool (resource tag : String) (attrs : List String)
    (syn : SynTable) (tm sm : List (Option String × Rec)) (k : Option String) :
    ∀ d ∈ compare_key resource tag attrs syn tm sm k,
      ∀ (tag' : String) (n : Option String) (s t : Bool),
        d = Drift.presence tag' n s t → s = !t := by
  intro d hd tag' n s t hdef
  subst hdef
  rw [compare_key] at hd
  rcases htm : lookupKey tm k with _ | tf_res
  · rw [htm, List.mem_singleton] at hd
    injection hd with h1 h2 h3 h4
    subst h3
    subst h4
    rfl
  · rw [htm] at hd
    rcases hsm : lookupKey sm k with _ | sf_res
    · rw [hsm, List.mem_singleton] at hd
      injection hd with h1 h2 h3 h4
      subst h3
      subst h4
      rfl
    · rw [hsm] at hd
      rcases List.mem_filterMap.mp hd with ⟨a, _, ha⟩
      rcases (check_attr_eq_some_iff _ _ _ _ _ _ _ _).mp ha with ⟨_, hdef2⟩
      exact Drift.noConfusion hdef2

/-- Claim C2: a key present only in the observed (Snowflake) map yields the
presence drift with Snowflake=true, Terraform=false; a key present only in the
declared (Terraform) map yields Snowflake=false, Terraform=true; and every
presence-drift record has exactly one of the two booleans set. -/
theorem compare_resources_presence_drift_sides (tf_state : TfState)
    (sf_resources : List Rec) (resource : String) (attributes : List String)
    (syn : SynTable) (drifts : List Drift)
    (hok : compare_resources tf_state sf_resources resource attributes syn
      = Except.ok drifts) (k : Option String) :
    (lookupKey (tf_res_map tf_state resource) k = Option.none →
      lookupKey (sf_res_map sf_resources resource) k ≠ Option.none →
      drifts.filter (fun d => driftName d == k)
        = [Drift.presence (tf_resource_type resource) k true false]) ∧
    (lookupKey (sf_res_map sf_resources resource) k = Option.none →
      lookupKey (tf_res_map tf_state resource) k ≠ Option.none →
      drifts.filter (fun d => driftName d == k)
        = [Drift.presence (tf_resource_type resource) k false true]) ∧
    (∀ d ∈ drifts, ∀ (tag' : String) (n : Option String) (s t : Bool),
      d = Drift.presence tag' n s t → s = !t) := by
  have hS := filter_drifts_eq tf_state sf_resources resource attributes syn drifts hok k
  refine ⟨?_, ?_, ?_⟩
  · intro htf hsf
    rcases hr : lookupKey (sf_res_map sf_resources resource) k with _ | r
    · exact absurd hr hsf
    · have hmem := (mem_unionKeys ((tf_res_map tf_state resource).map Prod.fst)
          ((sf_res_map sf_resources resource).map Prod.fst) k).mpr
        (Or.inr ((lookupKey_isSome_iff _ _).mp ⟨r, hr⟩))
      rw [hS, if_pos hmem]
      exact compare_key_of_tf_none _ _ _ _ _ _ _ htf
  · intro hsf htf
    rcases hr : lookupKey (tf_res_map tf_state resource) k with _ | r
    · exact absurd hr htf
    · have hmem := (mem_unionKeys ((tf_res_map tf_state resource).map Prod.fst)
          ((sf_res_map sf_resources resource).map Prod.fst) k).mpr
        (Or.inl ((lookupKey_isSome_iff _ _).mp ⟨r, hr⟩))
      rw [hS, if_pos hmem]
      exact compare_key_of_sf_none _ _ _ _ _ _ _ r hr hsf
  · intro d hd tag' n s t hdef
    rcases (mem_drifts_iff _ _ _ _ _ _ hok d).mp hd with ⟨k', _, hdk⟩
    exact compare_key_presence_bool _ _ _ _ _ _ k' d hdk tag' n s t hdef

/-- Witness for C2 at a concrete run: observed has "wh2", declared is empty,
so the run yields one Snowflake-only presence drift for key "wh2". -/
theorem compare_resources_presence_drift_sides_witness :
    (lookupKey (tf_res_map ⟨Option.some []⟩ "warehouse") (Option.some "wh2")
        = Option.none →
      lookupKey (sf_res_map [[("name", Option.some "wh2")]] "warehouse")
          (Option.some "wh2") ≠ Option.none →
      [Drift.presence (tf_resource_type "warehouse") (Option.some "wh2") true
          false].filter (fun d => driftName d == Option.some "wh2")
        = [Drift.presence (tf_resource_type "warehouse") (Option.some "wh2")
            true false]) ∧
    (lookupKey (sf_res_map [[("name", Option.some "wh2")]] "warehouse")
        (Option.some "wh2") = Option.none →
      lookupKey (tf_res_map ⟨Option.some []⟩ "warehouse") (Option.some "wh2")
        ≠ Option.none →
      [Drift.presence (tf_resource_type "warehouse") (Option.some "wh2") true
          false].filter (fun d => driftName d == Option.some "wh2")
        = [Drift.presence (tf_resource_type "warehouse") (Option.some "wh2")
            false true]) ∧
    (∀ d ∈ [Drift.presence (tf_resource_type "warehouse") (Option.some "wh2")
        true false], ∀ (tag' : String) (n : Option String) (s t : Bool),
      d = Drift.presence tag' n s t → s = !t) :=
  compare_resources_presence_drift_sides ⟨Option.some []⟩
    [[("name", Option.some "wh2")]] "warehouse" ["size"] []
    [Drift.presence (tf_resource_type "warehouse") (Option.some "wh2") true false]
    (by decide) (Option.some "wh2")

theorem mem_drifts_name_iff (tf_state : TfState) (sf_resources : List Rec)
    (resource : String) (attributes : List String) (syn : SynTable)
    (drifts : List Drift)
    (hok : compare_resources tf_state sf_resources resource attributes syn
      = Except.ok drifts) (k : Option String) (tf_res sf_res : Rec)
    (htf : lookupKey (tf_res_map tf_state resource) k = Option.some tf_res)
    (hsf : lookupKey (sf_res_map sf_resources resource) k = Option.some sf_res)
    (d : Drift) :
    (d ∈ drifts ∧ driftName d = k) ↔
      ∃ a ∈ attributes,
        check_attr resource (tf_resource_type resource) syn k tf_res sf_res a
          = Option.some d := by
  have hS := filter_drifts_eq tf_state sf_resources resource attributes syn drifts hok k
  have hmem := (mem_unionKeys ((tf_res_map tf_state resource).map Prod.fst)
      ((sf_res_map sf_resources resource).map Prod.fst) k).mpr
    (Or.inl ((lookupKey_isSome_iff _ _).mp ⟨tf_res, htf⟩))
  rw [if_pos hmem,
    compare_key_of_both resource (tf_resource_type resource) attributes syn
      (tf_res_map tf_state resource) (sf_res_map sf_resources resource) k
      tf_res sf_res htf hsf] at hS
  constructor
  · rintro ⟨hd, hn⟩
    have hin : d ∈ drifts.filter (fun d => driftName d == k) :=
      List.mem_filter.mpr ⟨hd, by rw [hn]; exact beq_self_eq_true k⟩
    rw [hS] at hin
    exact List.mem_filterMap.mp hin
  · intro hex
    have hin : d ∈ drifts.filter (fun d => driftName d == k) := by
      rw [hS]
      exact List.mem_filterMap.mpr hex
    rcases List.mem_filter.mp hin with ⟨hd, hn⟩
    exact ⟨hd, beq_iff_eq.mp hn⟩

theorem isAttrAt_elim (k : Option String) (attr : String) (d : Drift)
    (h : isAttrAt k attr d = true) :
    ∃ (tag : String) (s t : String), d = Drift.attribute tag k attr s t := by
  rcases d with ⟨tg, n, s, t⟩ | ⟨tg, n, a, s, t⟩
  · exact absurd h (by simp [isAttrAt])
  · simp only [isAttrAt, Bool.and_eq_true, beq_iff_eq] at h
    exact ⟨tg, s, t, by rw [h.1, h.2]⟩

/-- Claim C3: for a key present on both sides and an attribute in the
descriptor's list, an attribute drift is emitted exactly when the two
canonicalized (synonym-mapped) forms differ, and the record carries the
pre-synonym upper-cased strings (Snowflake value and Terraform value), never
the canonicalized forms. -/
theorem compare_resources_attribute_drift_iff (tf_state : TfState)
    (sf_resources : List Rec) (resource : String) (attributes : List String)
    (syn : SynTable) (drifts : List Drift)
    (hok : compare_resources tf_state sf_resources resource attributes syn
      = Except.ok drifts) (k : Option String) (tf_res sf_res : Rec)
    (htf : lookupKey (tf_res_map tf_state resource) k = Option.some tf_res)
    (hsf : lookupKey (sf_res_map sf_resources resource) k = Option.some sf_res)
    (attr : String) (ha : attr ∈ attributes) :
    (Drift.attribute (tf_resource_type resource) k attr
        (valueStr (pyGet sf_res attr)) (valueStr (pyGet tf_res attr)) ∈ drifts ↔
      canon syn resource attr (valueStr (pyGet tf_res attr))
        ≠ canon syn resource attr (valueStr (pyGet sf_res attr))) ∧
    (∀ d ∈ drifts, isAttrAt k attr d = true →
      d = Drift.attribute (tf_resource_type resource) k attr
        (valueStr (pyGet sf_res attr)) (valueStr (pyGet tf_res attr))) := by
  constructor
  · constructor
    · intro hd
      rcases (mem_drifts_name_iff tf_state sf_resources resource attributes syn
          drifts hok k tf_res sf_res htf hsf _).mp ⟨hd, rfl⟩ with ⟨a, _, hca⟩
      rcases (check_attr_eq_some_iff _ _ _ _ _ _ _ _).mp hca with ⟨hne, hdef⟩
      injection hdef with e1 e2 e3 e4 e5
      rw [e3]
      exact hne
    · intro hne
      exact ((mem_drifts_name_iff tf_state sf_resources resource attributes syn
          drifts hok k tf_res sf_res htf hsf _).mpr
        ⟨attr, ha, (check_attr_eq_some_iff _ _ _ _ _ _ _ _).mpr ⟨hne, rfl⟩⟩).1
  · intro d hd hat
    rcases isAttrAt_elim k attr d hat with ⟨tg, s, t, hdef⟩
    have hn : driftName d = k := by rw [hdef]; rfl
    rcases (mem_drifts_name_iff tf_state sf_resources resource attributes syn
        drifts hok k tf_res sf_res htf hsf d).mp ⟨hd, hn⟩ with ⟨a, _, hca⟩
    rcases (check_attr_eq_some_iff _ _ _ _ _ _ _ _).mp hca with ⟨_, hdef2⟩
    have hattr : a = attr := by
      rw [hdef] at hdef2
      injection hdef2 with e1 e2 e3 e4 e5
      exact e3.symm
    rw [hdef2, hattr]

/-- Witness for C3 at a concrete run: both sides have "wh1" and the "size"
attribute differs ("XS" vs "S") with an empty synonym table. -/
theorem compare_resources_attribute_drift_iff_witness :
    (Drift.attribute (tf_resource_type "warehouse") (Option.some "wh1") "size"
        (valueStr (pyGet [("name", Option.some "wh1"), ("size", Option.some "S")] "size"))
        (valueStr (pyGet [("name", Option.some "wh1"), ("size", Option.some "XS")] "size"))
        ∈ [Drift.attribute "snowflake_warehouse" (Option.some "wh1") "size" "S" "XS"] ↔
      canon [] "warehouse" "size"
          (valueStr (pyGet [("name", Option.some "wh1"), ("size", Option.some "XS")] "size"))
        ≠ canon [] "warehouse" "size"
          (valueStr (pyGet [("name", Option.some "wh1"), ("size", Option.some "S")] "size"))) ∧
    (∀ d ∈ [Drift.attribute "snowflake_warehouse" (Option.some "wh1") "size" "S" "XS"],
      isAttrAt (Option.some "wh1") "size" d = true →
      d = Drift.attribute (tf_resource_type "warehouse") (Option.some "wh1") "size"
        (valueStr (pyGet [("name", Option.some "wh1"), ("size", Option.some "S")] "size"))
        (valueStr (pyGet [("name", Option.some "wh1"), ("size", Option.some "XS")] "size"))) :=
  compare_resources_attribute_drift_iff
    ⟨Option.some [ResGroup.group "snowflake_warehouse"
        [Instance.ok [("name", Option.some "wh1"), ("size", Option.some "XS")]]]⟩
    [[("name", Option.some "wh1"), ("size", Option.some "S")]]
    "warehouse" ["size"] []
    [Drift.attribute "snowflake_warehouse" (Option.some "wh1") "size" "S" "XS"]
    (by decide) (Option.some "wh1")
    [("name", Option.some "wh1"), ("size", Option.some "XS")]
    [("name", Option.some "wh1"), ("size", Option.some "S")]
    (by decide) (by decide) "size" (by decide)

/-- Claim C6: for a key present on both sides, a missing-or-None attribute is
compared as the literal string "NULL", and when the attribute is missing or
None on both sides no attribute drift is ever produced for it. -/
theorem compare_resources_null_handling (tf_state : TfState)
    (sf_resources : List Rec) (resource : String) (attributes : List String)
    (syn : SynTable) (drifts : List Drift)
    (hok : compare_resources tf_state sf_resources resource attributes syn
      = Except.ok drifts) (k : Option String) (tf_res sf_res : Rec)
    (htf : lookupKey (tf_res_map tf_state resource) k = Option.some tf_res)
    (hsf : lookupKey (sf_res_map sf_resources resource) k = Option.some sf_res)
    (attr : String)
    (h1 : pyGet tf_res attr = Option.none) (h2 : pyGet sf_res attr = Option.none) :
    valueStr (pyGet tf_res attr) = "NULL" ∧
    ∀ d ∈ drifts, isAttrAt k attr d = false := by
  refine ⟨by rw [h1]; rfl, ?_⟩
  intro d hd
  rcases hx : isAttrAt k attr d with _ | _
  · rfl
  · exfalso
    rcases isAttrAt_elim k attr d hx with ⟨tg, s, t, hdef⟩
    have hn : driftName d = k := by rw [hdef]; rfl
    rcases (mem_drifts_name_iff tf_state sf_resources resource attributes syn
        drifts hok k tf_res sf_res htf hsf d).mp ⟨hd, hn⟩ with ⟨a, _, hca⟩
    rcases (check_attr_eq_some_iff _ _ _ _ _ _ _ _).mp hca with ⟨hne, hdef2⟩
    have ha : a = attr := by
      rw [hdef] at hdef2
      injection hdef2 with e1 e2 e3 e4 e5
      exact e3.symm
    subst ha
    apply hne
    rw [h1, h2]

/-- Witness for C6 at a concrete run: both sides have "wh1" and neither side
has the compared attribute "size", so no drift is produced. -/
theorem compare_resources_null_handling_witness :
    valueStr (pyGet [("name", Option.some "wh1")] "size") = "NULL" ∧
    ∀ d ∈ ([] : List Drift), isAttrAt (Option.some "wh1") "size" d = false :=
  compare_resources_null_handling
    ⟨Option.some [ResGroup.group "snowflake_warehouse"
        [Instance.ok [("name", Option.some "wh1")]]]⟩
    [[("name", Option.some "wh1")]] "warehouse" ["size"] [] []
    (by decide) (Option.some "wh1")
    [("name", Option.some "wh1")] [("name", Option.some "wh1")]
    (by decide) (by decide) "size" (by decide) (by decide)

theorem dictGetD_identity (tbl : SynAttrTable)
    (hid : ∀ p ∈ tbl, p.2 = p.1) (v : String) : dictGetD tbl v v = v := by
  rw [dictGetD]
  rcases hf : tbl.find? (fun p => p.1 == v) with _ | p
  · rw [hf]
    rfl
  · have hp := List.find?_some hf
    have hmem := List.mem_of_find?_eq_some hf
    rw [hf]
    show p.2 = v
    rw [hid p hmem]
    exact beq_iff_eq.mp hp

/-- Claim C7: when the synonym sub-table for (resource type, attribute) is an
identity mapping (or absent, which gives the empty sub-table), an attribute
drift is emitted for a key present on both sides exactly when the two sides'
upper-cased string forms differ. -/
theorem compare_resources_identity_synonyms (tf_state : TfState)
    (sf_resources : List Rec) (resource : String) (attributes : List String)
    (syn : SynTable) (drifts : List Drift)
    (hok : compare_resources tf_state sf_resources resource attributes syn
      = Except.ok drifts) (k : Option String) (tf_res sf_res : Rec)
    (htf : lookupKey (tf_res_map tf_state resource) k = Option.some tf_res)
    (hsf : lookupKey (sf_res_map sf_resources resource) k = Option.some sf_res)
    (attr : String) (ha : attr ∈ attributes)
    (hid : ∀ p ∈ synonyms_for syn resource attr, p.2 = p.1) :
    (∃ d ∈ drifts, isAttrAt k attr d = true) ↔
      valueStr (pyGet tf_res attr) ≠ valueStr (pyGet sf_res attr) := by
  have hcanon : ∀ v : String, canon syn resource attr v = v := fun v =>
    dictGetD_identity (synonyms_for syn resource attr) hid v
  constructor
  · rintro ⟨d, hd, hx⟩
    rcases isAttrAt_elim k attr d hx with ⟨tg, s, t, hdef⟩
    have hn : driftName d = k := by rw [hdef]; rfl
    rcases (mem_drifts_name_iff tf_state sf_resources resource attributes syn
        drifts hok k tf_res sf_res htf hsf d).mp ⟨hd, hn⟩ with ⟨a, _, hca⟩
    rcases (check_attr_eq_some_iff _ _ _ _ _ _ _ _).mp hca with ⟨hne, hdef2⟩
    have haa : a = attr := by
      rw [hdef] at hdef2
      injection hdef2 with e1 e2 e3 e4 e5
      exact e3.symm
    subst haa
    rw [hcanon, hcanon] at hne
    exact hne
  · intro hne
    refine ⟨Drift.attribute (tf_resource_type resource) k attr
        (valueStr (pyGet sf_res attr)) (valueStr (pyGet tf_res attr)), ?_, ?_⟩
    · exact ((mem_drifts_name_iff tf_state sf_resources resource attributes syn
          drifts hok k tf_res sf_res htf hsf _).mpr
        ⟨attr, ha, (check_attr_eq_some_iff _ _ _ _ _ _ _ _).mpr
          ⟨by rw [hcanon, hcanon]; exact hne, rfl⟩⟩).1
    · simp [isAttrAt]

/-- Witness for C7 at a concrete run: an identity synonym sub-table for
(warehouse, size), sides "XS" vs "S", so a drift exists and the upper-cased
forms differ. -/
theorem compare_resources_identity_synonyms_witness :
    (∃ d ∈ [Drift.attribute "snowflake_warehouse" (Option.some "wh1") "size"
        "S" "XS"], isAttrAt (Option.some "wh1") "size" d = true) ↔
      valueStr (pyGet [("name", Option.some "wh1"), ("size", Option.some "XS")] "size")
        ≠ valueStr (pyGet [("name", Option.some "wh1"), ("size", Option.some "S")] "size") :=
  compare_resources_identity_synonyms
    ⟨Option.some [ResGroup.group "snowflake_warehouse"
        [Instance.ok [("name", Option.some "wh1"), ("size", Option.some "XS")]]]⟩
    [[("name", Option.some "wh1"), ("size", Option.some "S")]]
    "warehouse" ["size"] [("warehouse", [("size", [("XS", "XS")])])]
    [Drift.attribute "snowflake_warehouse" (Option.some "wh1") "size" "S" "XS"]
    (by decide) (Option.some "wh1")
    [("name", Option.some "wh1"), ("size", Option.some "XS")]
    [("name", Option.some "wh1"), ("size", Option.some "S")]
    (by decide) (by decide) "size" (by decide) (by decide)

/-- Claim C10: a raw value that upper-cases to the literal "NULL" (for example
the string "null") is indistinguishable from a missing or None attribute:
whichever side holds such a value while the other side misses the attribute,
the two compare equal and no attribute drift is produced for that attribute
(absent a synonym entry remapping "NULL"). -/
theorem compare_resources_null_string_indistinguishable (tf_state : TfState)
    (sf_resources : List Rec) (resource : String) (attributes : List String)
    (syn : SynTable) (drifts : List Drift)
    (hok : compare_resources tf_state sf_resources resource attributes syn
      = Except.ok drifts) (k : Option String) (tf_res sf_res : Rec)
    (htf : lookupKey (tf_res_map tf_state resource) k = Option.some tf_res)
    (hsf : lookupKey (sf_res_map sf_resources resource) k = Option.some sf_res)
    (attr : String)
    (hnull : (valueStr (pyGet tf_res attr) = "NULL" ∧
        pyGet sf_res attr = Option.none) ∨
      (pyGet tf_res attr = Option.none ∧
        valueStr (pyGet sf_res attr) = "NULL"))
    (hsyn : dictGetD (synonyms_for syn resource attr) "NULL" "NULL" = "NULL") :
    ∀ d ∈ drifts, isAttrAt k attr d = false := by
  intro d hd
  rcases hx : isAttrAt k attr d with _ | _
  · rfl
  · exfalso
    rcases isAttrAt_elim k attr d hx with ⟨tg, s, t, hdef⟩
    have hn : driftName d = k := by rw [hdef]; rfl
    rcases (mem_drifts_name_iff tf_state sf_resources resource attributes syn
        drifts hok k tf_res sf_res htf hsf d).mp ⟨hd, hn⟩ with ⟨a, _, hca⟩
    rcases (check_attr_eq_some_iff _ _ _ _ _ _ _ _).mp hca with ⟨hne, hdef2⟩
    have ha : a = attr := by
      rw [hdef] at hdef2
      injection hdef2 with e1 e2 e3 e4 e5
      exact e3.symm
    subst ha
    apply hne
    rcases hnull with ⟨hv, hm⟩ | ⟨hm, hv⟩
    · rw [hv, hm]
      rfl
    · rw [hm, hv]
      rfl

/-- Witness for C10 at a concrete run: the observed "size" is the string
"null" while the declared record lacks "size"; both compare as "NULL", so the
run's only drift record (for the differing attribute "comment") is not a
drift for "size". -/
theorem compare_resources_null_string_indistinguishable_witness :
    isAttrAt (Option.some "wh1") "size"
      (Drift.attribute "snowflake_warehouse" (Option.some "wh1") "comment" "B" "A")
      = false :=
  compare_resources_null_string_indistinguishable
    ⟨Option.some [ResGroup.group "snowflake_warehouse"
        [Instance.ok [("name", Option.some "wh1"),
          ("comment", Option.some "a")]]]⟩
    [[("name", Option.some "wh1"), ("size", Option.some "null"),
      ("comment", Option.some "b")]]
    "warehouse" ["size", "comment"] []
    [Drift.attribute "snowflake_warehouse" (Option.some "wh1") "comment" "B" "A"]
    (by decide) (Option.some "wh1")
    [("name", Option.some "wh1"), ("comment", Option.some "a")]
    [("name", Option.some "wh1"), ("size", Option.some "null"),
      ("comment", Option.some "b")]
    (by decide) (by decide) "size" (Or.inr ⟨by decide, by decide⟩) (by decide)
    (Drift.attribute "snowflake_warehouse" (Option.some "wh1") "comment" "B" "A")
    (by decide)

/-- Claim C4 (code bug): the claim says a declared-state document missing the
`resources` sequence is reported as InvalidInput, but the code reads it with
`.get("resources", [])` and silently returns a result; with no observed
resources the result is the empty drift list, indistinguishable from the
legitimate "no drift" result of a structurally valid empty state (second
conjunct). -/
theorem compare_resources_missing_resources_silently_ok :
    compare_resources ⟨Option.none⟩ [] "warehouse" ["size"] [] = Except.ok [] ∧
    compare_resources ⟨Option.some []⟩ [] "warehouse" ["size"] [] = Except.ok [] :=
  ⟨by decide, by decide⟩

/-- Claim C9: when several records carry the same identity-key value, the key
map built by the engine holds exactly the last such record (earlier duplicates
are discarded before comparison), and no error is reported: any run with valid
resource/attribute parameters returns Except.ok regardless of duplicates.
Both the declared-by-key and observed-by-key maps are built by `buildMap`, so
the first conjunct covers declared instances and observed resources alike. -/
theorem compare_resources_last_duplicate_wins :
    (∀ (kf : String) (rs : List Rec) (k : Option String),
        lookupKey (buildMap kf rs) k
          = (rs.filter (fun r => dictFind r kf == Option.some k)).getLast?) ∧
    (∀ (tf_state : TfState) (sf_resources : List Rec) (resource : String)
        (attributes : List String) (syn : SynTable),
        stripIsEmpty resource = false →
        (attributes.isEmpty || attributes.any (fun a => stripIsEmpty a)) = false →
        ∃ ds, compare_resources tf_state sf_resources resource attributes syn
          = Except.ok ds) := by
  refine ⟨lookupKey_buildMap, ?_⟩
  intro tf sf resource attrs syn h1 h2
  exact ⟨_, (compare_resources_ok_iff _ _ _ _ _ _).mpr ⟨h1, h2, rfl⟩⟩

/-- Witness for C9 at a concrete run: two observed records share key "wh1";
the map holds the second (size "S"), and the run still returns Except.ok. -/
theorem compare_resources_last_duplicate_wins_witness :
    lookupKey (buildMap "name"
        [[("name", Option.some "wh1"), ("size", Option.some "XS")],
         [("name", Option.some "wh1"), ("size", Option.some "S")]])
        (Option.some "wh1")
      = Option.some [("name", Option.some "wh1"), ("size", Option.some "S")] ∧
    ∃ ds, compare_resources ⟨Option.some []⟩
        [[("name", Option.some "wh1"), ("size", Option.some "XS")],
         [("name", Option.some "wh1"), ("size", Option.some "S")]]
        "warehouse" ["size"] [] = Except.ok ds := by
  constructor
  · rw [compare_resources_last_duplicate_wins.1 "name" _ (Option.some "wh1")]
    decide
  · exact compare_resources_last_duplicate_wins.2 ⟨Option.some []⟩
      [[("name", Option.some "wh1"), ("size", Option.some "XS")],
       [("name", Option.some "wh1"), ("size", Option.some "S")]]
      "warehouse" ["size"] [] (by decide) (by decide)

/-! ### The identity-key field and key-less records (C5) -/

theorem snowflake_append_eq_iff (s : String) :
    ("snowflake_" ++ s : String) = "snowflake_user" ↔ s = "user" := by
  constructor
  · intro h
    have hd := congrArg String.data h
    rw [String.data_append] at hd
    have hsplit : ("snowflake_user" : String).data
        = ("snowflake_" : String).data ++ ("user" : String).data := by decide
    rw [hsplit] at hd
    exact String.ext (List.append_cancel_left hd)
  · intro h
    rw [h]
    decide

theorem key_field_eq (resource : String) :
    key_field resource
      = (if strLower resource == "user" then "login_name" else "name") := by
  rw [key_field, tf_resource_type]
  rcases h : (strLower resource == "user") with _ | _
  · have hne : ¬ ("snowflake_" ++ strLower resource : String) = "snowflake_user" := by
      intro hc
      rw [snowflake_append_eq_iff] at hc
      rw [hc] at h
      simp at h
    have hb : (("snowflake_" ++ strLower resource : String) == "snowflake_user")
        = false := beq_eq_false_iff_ne.mpr hne
    rw [hb]
  · have heq : strLower resource = "user" := beq_iff_eq.mp h
    have hb : (("snowflake_" ++ strLower resource : String) == "snowflake_user")
        = true := by
      rw [beq_iff_eq, snowflake_append_eq_iff]
      exact heq
    rw [hb]

/-- Records that contain the key field: exactly the ones the engine keeps when
building its key maps. -/
def keyedOnly (kf : String) (rs : List Rec) : List Rec :=
  rs.filter (fun r => (dictFind r kf).isSome)

/-- An instance the engine would keep after key filtering: malformed instances
are already invisible, well-formed ones must contain the key field. -/
def instanceKeyed (kf : String) : Instance → Bool
  | Instance.malformed => true
  | Instance.ok r => (dictFind r kf).isSome

/-- Drop the key-less well-formed instances of a group. -/
def groupKeyed (kf : String) : ResGroup → ResGroup
  | ResGroup.malformed => ResGroup.malformed
  | ResGroup.group t instances =>
      ResGroup.group t (instances.filter (instanceKeyed kf))

/-- Drop the key-less declared instances of a whole state document. -/
def stateKeyed (kf : String) (s : TfState) : TfState :=
  ⟨s.resources.map (fun gs => gs.map (groupKeyed kf))⟩

theorem keyedOnly_append (kf : String) (xs ys : List Rec) :
    keyedOnly kf (xs ++ ys) = keyedOnly kf xs ++ keyedOnly kf ys :=
  List.filter_append xs ys

theorem foldl_buildStep_keyedOnly (kf : String) (rs : List Rec) :
    ∀ m, (keyedOnly kf rs).foldl (buildStep kf) m = rs.foldl (buildStep kf) m := by
  induction rs with
  | nil => intro m; rfl
  | cons r rest ih =>
      intro m
      rw [keyedOnly, List.filter_cons]
      rcases hf : dictFind r kf with _ | k
      · have hstep : buildStep kf m r = m := by simp [buildStep, hf]
        simp only [Option.isSome_none, Bool.false_eq_true, if_false,
          List.foldl_cons, hstep]
        exact ih m
      · simp only [Option.isSome_some, if_true, List.foldl_cons]
        exact ih (buildStep kf m r)

theorem buildMap_keyedOnly (kf : String) (rs : List Rec) :
    buildMap kf (keyedOnly kf rs) = buildMap kf rs := by
  rw [buildMap, buildMap]
  exact foldl_buildStep_keyedOnly kf rs []

theorem instAttrs_keyed (kf : String) (instances : List Instance) :
    (instances.filter (instanceKeyed kf)).filterMap instance_attributes
      = keyedOnly kf (instances.filterMap instance_attributes) := by
  induction instances with
  | nil => rfl
  | cons i rest ih =>
      rcases i with _ | r
      · simpa [instanceKeyed, instance_attributes] using ih
      · rcases hf : dictFind r kf with _ | k
        · simp [instanceKeyed, instance_attributes, keyedOnly, hf, ih]
        · simp [instanceKeyed, instance_attributes, keyedOnly, hf, ih]

theorem group_resources_keyed (kf tag : String) (g : ResGroup) :
    group_resources tag (groupKeyed kf g) = keyedOnly kf (group_resources tag g) := by
  rcases g with _ | ⟨t, instances⟩
  · rfl
  · rw [groupKeyed, group_resources, group_resources]
    rcases h : (t == tag) with _ | _
    · rfl
    · exact instAttrs_keyed kf instances

theorem flatMap_groupKeyed (kf tag : String) (gs : List ResGroup) :
    (gs.map (groupKeyed kf)).flatMap (group_resources tag)
      = keyedOnly kf (gs.flatMap (group_resources tag)) := by
  induction gs with
  | nil => rfl
  | cons g rest ih =>
      rw [List.map_cons, List.flatMap_cons, List.flatMap_cons, keyedOnly_append,
        group_resources_keyed kf tag g, ih]

theorem extract_stateKeyed (kf tag : String) (tf : TfState) :
    extract_tf_resources (stateKeyed kf tf) tag
      = keyedOnly kf (extract_tf_resources tf tag) := by
  rw [extract_tf_resources, extract_tf_resources, stateKeyed]
  rcases tf with ⟨res⟩
  rcases res with _ | gs
  · rfl
  · exact flatMap_groupKeyed kf tag gs

theorem tf_res_map_stateKeyed (tf_state : TfState) (resource : String) :
    tf_res_map (stateKeyed (key_field resource) tf_state) resource
      = tf_res_map tf_state resource := by
  rw [tf_res_map, tf_res_map, extract_stateKeyed, buildMap_keyedOnly]

theorem sf_res_map_keyedOnly (sf_resources : List Rec) (resource : String) :
    sf_res_map (keyedOnly (key_field resource) sf_resources) resource
      = sf_res_map sf_resources resource := by
  rw [sf_res_map, sf_res_map, buildMap_keyedOnly]

/-- Claim C5 counterexample: for the resource type "USER" (which is not the
string "user"), the claim as stated predicts the identity key "name", so the
observed record named "wh1" would be kept and reported as a Snowflake-only
presence drift; the code lower-cases the type before the comparison, selects
"login_name", drops the record, and returns no drift at all. -/
theorem compare_resources_key_field_counterexample :
    ("USER" : String) ≠ "user" ∧
    key_field "USER" = "login_name" ∧
    compare_resources ⟨Option.some []⟩ [[("name", Option.some "wh1")]] "USER"
        ["size"] [] = Except.ok [] :=
  ⟨by decide, by decide, by decide⟩

/-- Claim C5 (amended): the identity key is "login_name" exactly when the
resource type lower-cases to "user" and "name" for every other resource type;
and records lacking their key field are invisible: dropping them from the
declared state and from the observed list leaves the engine's result
unchanged, so they can never appear in any drift record. -/
theorem compare_resources_key_field_amended (resource : String)
    (tf_state : TfState) (sf_resources : List Rec) (attributes : List String)
    (syn : SynTable) :
    key_field resource
        = (if strLower resource == "user" then "login_name" else "name") ∧
    compare_resources tf_state sf_resources resource attributes syn
      = compare_resources (stateKeyed (key_field resource) tf_state)
          (keyedOnly (key_field resource) sf_resources) resource attributes syn := by
  refine ⟨key_field_eq resource, ?_⟩
  have htf := tf_res_map_stateKeyed tf_state resource
  have hsf := sf_res_map_keyedOnly sf_resources resource
  simp only [compare_resources, htf, hsf]

/-! ### Irrelevance of extra attributes (C8) -/

/-- Agreement of two records on everything the engine can inspect for a given
descriptor: the identity-key field and every attribute in the descriptor's
list (presence and value alike). -/
def recAgree (attrs : List String) (kf : String) (r r' : Rec) : Bool :=
  (kf :: attrs).all (fun a => dictFind r a == dictFind r' a)

/-- Pointwise lifting of a binary Bool relation to lists of equal length. -/
def listRel {α β : Type} (f : α → β → Bool) : List α → List β → Bool
  | [], [] => true
  | x :: xs, y :: ys => f x y && listRel f xs ys
  | _, _ => false

def instAgree (attrs : List String) (kf : String) : Instance → Instance → Bool
  | Instance.malformed, Instance.malformed => true
  | Instance.ok r, Instance.ok r' => recAgree attrs kf r r'
  | _, _ => false

def groupAgree (attrs : List String) (kf : String) : ResGroup → ResGroup → Bool
  | ResGroup.malformed, ResGroup.malformed => true
  | ResGroup.group t instances, ResGroup.group t' instances2 =>
      t == t' && listRel (instAgree attrs kf) instances instances2
  | _, _ => false

def stateAgree (attrs : List String) (kf : String) (s s' : TfState) : Bool :=
  match s.resources, s'.resources with
  | Option.none, Option.none => true
  | Option.some gs, Option.some gs' => listRel (groupAgree attrs kf) gs gs'
  | _, _ => false

def entryAgree (attrs : List String) (kf : String)
    (p q : Option String × Rec) : Bool :=
  p.1 == q.1 && recAgree attrs kf p.2 q.2

theorem recAgree_dictFind (attrs : List String) (kf : String) (r r' : Rec)
    (h : recAgree attrs kf r r' = true) (a : String) (ha : a = kf ∨ a ∈ attrs) :
    dictFind r a = dictFind r' a := by
  rw [recAgree, List.all_eq_true] at h
  refine beq_iff_eq.mp (h a ?_)
  rcases ha with ha | ha
  · rw [ha]
    exact List.mem_cons_self _ _
  · exact List.mem_cons_of_mem _ ha

theorem recAgree_pyGet (attrs : List String) (kf : String) (r r' : Rec)
    (h : recAgree attrs kf r r' = true) (a : String) (ha : a ∈ attrs) :
    pyGet r a = pyGet r' a := by
  rw [pyGet, pyGet, recAgree_dictFind attrs kf r r' h a (Or.inr ha)]

theorem listRel_append {α β : Type} (f : α → β → Bool) :
    ∀ (xs : List α) (ys : List β) (xs' : List α) (ys' : List β),
      listRel f xs ys = true → listRel f xs' ys' = true →
      listRel f (xs ++ xs') (ys ++ ys') = true := by
  intro xs
  induction xs with
  | nil =>
      intro ys xs' ys' h h'
      cases ys with
      | nil => simpa using h'
      | cons y ys => exact absurd h (by simp [listRel])
  | cons x xs ih =>
      intro ys xs' ys' h h'
      cases ys with
      | nil => exact absurd h (by simp [listRel])
      | cons y ys =>
          simp only [listRel, Bool.and_eq_true] at h
          simp only [List.cons_append, listRel, Bool.and_eq_true]
          exact ⟨h.1, ih ys xs' ys' h.2 h'⟩

theorem listRel_filterMap_instances (attrs : List String) (kf : String) :
    ∀ (is1 is2 : List Instance),
      listRel (instAgree attrs kf) is1 is2 = true →
      listRel (recAgree attrs kf) (is1.filterMap instance_attributes)
        (is2.filterMap instance_attributes) = true := by
  intro is1
  induction is1 with
  | nil =>
      intro is2 h
      cases is2 with
      | nil => rfl
      | cons i is2 => exact absurd h (by simp [listRel])
  | cons i rest ih =>
      intro is2 h
      cases is2 with
      | nil => exact absurd h (by simp [listRel])
      | cons i2 rest2 =>
          simp only [listRel, Bool.and_eq_true] at h
          rcases i with _ | r
          · rcases i2 with _ | r2
            · simpa [instance_attributes] using ih rest2 h.2
            · exact absurd h.1 (by simp [instAgree])
          · rcases i2 with _ | r2
            · exact absurd h.1 (by simp [instAgree])
            · simp only [List.filterMap_cons, instance_attributes, listRel,
                Bool.and_eq_true]
              exact ⟨h.1, ih rest2 h.2⟩

theorem listRel_group_resources (attrs : List String) (kf tag : String)
    (g g' : ResGroup) (h : groupAgree attrs kf g g' = true) :
    listRel (recAgree attrs kf) (group_resources tag g)
      (group_resources tag g') = true := by
  rcases g with _ | ⟨t, is1⟩
  · rcases g' with _ | ⟨t', is2⟩
    · rfl
    · exact absurd h (by simp [groupAgree])
  · rcases g' with _ | ⟨t', is2⟩
    · exact absurd h (by simp [groupAgree])
    · simp only [groupAgree, Bool.and_eq_true] at h
      have ht : t = t' := beq_iff_eq.mp h.1
      subst ht
      rw [group_resources, group_resources]
      rcases hc : (t == tag) with _ | _
      · rfl
      · exact listRel_filterMap_instances attrs kf is1 is2 h.2

theorem listRel_flatMap_groups (attrs : List String) (kf tag : String) :
    ∀ (gs gs' : List ResGroup),
      listRel (groupAgree attrs kf) gs gs' = true →
      listRel (recAgree attrs kf) (gs.flatMap (group_resources tag))
        (gs'.flatMap (group_resources tag)) = true := by
  intro gs
  induction gs with
  | nil =>
      intro gs' h
      cases gs' with
      | nil => rfl
      | cons g gs' => exact absurd h (by simp [listRel])
  | cons g rest ih =>
      intro gs' h
      cases gs' with
      | nil => exact absurd h (by simp [listRel])
      | cons g' rest2 =>
          simp only [listRel, Bool.and_eq_true] at h
          rw [List.flatMap_cons, List.flatMap_cons]
          exact listRel_append _ _ _ _ _
            (listRel_group_resources attrs kf tag g g' h.1) (ih rest2 h.2)

theorem listRel_extract (attrs : List String) (kf tag : String)
    (tf tf' : TfState) (h : stateAgree attrs kf tf tf' = true) :
    listRel (recAgree attrs kf) (extract_tf_resources tf tag)
      (extract_tf_resources tf' tag) = true := by
  rcases tf with ⟨_ | gs⟩
  · rcases tf' with ⟨_ | gs'⟩
    · rfl
    · exact absurd h (by simp [stateAgree])
  · rcases tf' with ⟨_ | gs'⟩
    · exact absurd h (by simp [stateAgree])
    · exact listRel_flatMap_groups attrs kf tag gs gs' h

theorem insertReplace_entryAgree (attrs : List String) (kf : String) :
    ∀ (m m' : List (Option String × Rec)) (k : Option String) (r r' : Rec),
      listRel (entryAgree attrs kf) m m' = true →
      recAgree attrs kf r r' = true →
      listRel (entryAgree attrs kf) (insertReplace m k r)
        (insertReplace m' k r') = true := by
  intro m
  induction m with
  | nil =>
      intro m' k r r' hm hr
      cases m' with
      | nil =>
          simp only [insertReplace, listRel, entryAgree, Bool.and_eq_true]
          exact ⟨⟨beq_self_eq_true k, hr⟩, trivial⟩
      | cons q rest2 => exact absurd hm (by simp [listRel])
  | cons p rest ih =>
      intro m' k r r' hm hr
      cases m' with
      | nil => exact absurd hm (by simp [listRel])
      | cons q rest2 =>
          obtain ⟨k₁, r₁⟩ := p
          obtain ⟨k₂, r₂⟩ := q
          simp only [listRel, entryAgree, Bool.and_eq_true] at hm
          have hk : k₁ = k₂ := beq_iff_eq.mp hm.1.1
          subst hk
          rw [insertReplace, insertReplace]
          rcases hcase : (k₁ == k) with _ | _
          · simp only [Bool.false_eq_true, if_false, listRel, entryAgree,
              Bool.and_eq_true]
            exact ⟨⟨beq_self_eq_true k₁, hm.1.2⟩, ih rest2 k r r' hm.2 hr⟩
          · simp only [if_true, listRel, entryAgree, Bool.and_eq_true]
            exact ⟨⟨beq_self_eq_true k, hr⟩, hm.2⟩

theorem buildMap_entryAgree (attrs : List String) (kf : String) :
    ∀ (rs rs' : List Rec) (m m' : List (Option String × Rec)),
      listRel (recAgree attrs kf) rs rs' = true →
      listRel (entryAgree attrs kf) m m' = true →
      listRel (entryAgree attrs kf) (rs.foldl (buildStep kf) m)
        (rs'.foldl (buildStep kf) m') = true := by
  intro rs
  induction rs with
  | nil =>
      intro rs' m m' hr hm
      cases rs' with
      | nil => simpa using hm
      | cons r rs' => exact absurd hr (by simp [listRel])
  | cons r rest ih =>
      intro rs' m m' hr hm
      cases rs' with
      | nil => exact absurd hr (by simp [listRel])
      | cons r' rest2 =>
          simp only [listRel, Bool.and_eq_true] at hr
          rw [List.foldl_cons, List.foldl_cons]
          have hkey : dictFind r kf = dictFind r' kf :=
            recAgree_dictFind attrs kf r r' hr.1 kf (Or.inl rfl)
          rcases hf : dictFind r kf with _ | k
          · have hstep1 : buildStep kf m r = m := by simp [buildStep, hf]
            have hstep2 : buildStep kf m' r' = m' := by
              simp [buildStep, ← hkey, hf]
            rw [hstep1, hstep2]
            exact ih rest2 m m' hr.2 hm
          · have hstep1 : buildStep kf m r = insertReplace m k r := by
              simp [buildStep, hf]
            have hstep2 : buildStep kf m' r' = insertReplace m' k r' := by
              simp [buildStep, ← hkey, hf]
            rw [hstep1, hstep2]
            exact ih rest2 _ _ hr.2
              (insertReplace_entryAgree attrs kf m m' k r r' hm hr.1)

theorem lookupKey_entryAgree (attrs : List String) (kf : String) :
    ∀ (m m' : List (Option String × Rec)) (k : Option String),
      listRel (entryAgree attrs kf) m m' = true →
      (lookupKey m k = Option.none ∧ lookupKey m' k = Option.none) ∨
      (∃ r r', lookupKey m k = Option.some r ∧ lookupKey m' k = Option.some r' ∧
        recAgree attrs kf r r' = true) := by
  intro m
  induction m with
  | nil =>
      intro m' k hm
      cases m' with
      | nil => exact Or.inl ⟨rfl, rfl⟩
      | cons q rest2 => exact absurd hm (by simp [listRel])
  | cons p rest ih =>
      intro m' k hm
      cases m' with
      | nil => exact absurd hm (by simp [listRel])
      | cons q rest2 =>
          obtain ⟨k₁, r₁⟩ := p
          obtain ⟨k₂, r₂⟩ := q
          simp only [listRel, entryAgree, Bool.and_eq_true] at hm
          have hk : k₁ = k₂ := beq_iff_eq.mp hm.1.1
          subst hk
          rw [lookupKey, lookupKey]
          rcases hcase : (k₁ == k) with _ | _
          · exact ih rest2 k hm.2
          · exact Or.inr ⟨r₁, r₂, rfl, rfl, hm.1.2⟩

theorem map_fst_entryAgree (attrs : List String) (kf : String) :
    ∀ (m m' : List (Option String × Rec)),
      listRel (entryAgree attrs kf) m m' = true →
      m.map Prod.fst = m'.map Prod.fst := by
  intro m
  induction m with
  | nil =>
      intro m' hm
      cases m' with
      | nil => rfl
      | cons q rest2 => exact absurd hm (by simp [listRel])
  | cons p rest ih =>
      intro m' hm
      cases m' with
      | nil => exact absurd hm (by simp [listRel])
      | cons q rest2 =>
          simp only [listRel, entryAgree, Bool.and_eq_true] at hm
          rw [List.map_cons, List.map_cons, beq_iff_eq.mp hm.1.1,
            ih rest2 hm.2]

theorem check_attr_agree (resource tag : String) (syn : SynTable)
    (k : Option String) (attrs : List String) (kf : String)
    (r r' s s' : Rec) (a : String) (ha : a ∈ attrs)
    (hr : recAgree attrs kf r r' = true) (hs : recAgree attrs kf s s' = true) :
    check_attr resource tag syn k r s a = check_attr resource tag syn k r' s' a := by
  rw [check_attr, check_attr, recAgree_pyGet attrs kf r r' hr a ha,
    recAgree_pyGet attrs kf s s' hs a ha]

theorem filterMap_congr_mem {α β : Type} (f g : α → Option β) :
    ∀ l : List α, (∀ a ∈ l, f a = g a) → l.filterMap f = l.filterMap g := by
  intro l
  induction l with
  | nil => intro _; rfl
  | cons x xs ih =>
      intro h
      rw [List.filterMap_cons, List.filterMap_cons, h x (List.mem_cons_self _ _)]
      rcases g x with _ | b
      · exact ih (fun a ha => h a (List.mem_cons_of_mem _ ha))
      · rw [ih (fun a ha => h a (List.mem_cons_of_mem _ ha))]

theorem compare_key_agree (resource tag : String) (attributes : List String)
    (syn : SynTable) (kf : String)
    (tm tm' sm sm' : List (Option String × Rec)) (k : Option String)
    (htm : listRel (entryAgree attributes kf) tm tm' = true)
    (hsm : listRel (entryAgree attributes kf) sm sm' = true) :
    compare_key resource tag attributes syn tm sm k
      = compare_key resource tag attributes syn tm' sm' k := by
  rw [compare_key, compare_key]
  rcases lookupKey_entryAgree attributes kf tm tm' k htm with
    ⟨h1, h2⟩ | ⟨r, r', h1, h2, hr⟩
  · rw [h1, h2]
  · rw [h1, h2]
    rcases lookupKey_entryAgree attributes kf sm sm' k hsm with
      ⟨g1, g2⟩ | ⟨s, s', g1, g2, hs⟩
    · rw [g1, g2]
    · rw [g1, g2]
      exact filterMap_congr_mem _ _ attributes fun a ha =>
        check_attr_agree resource tag syn k attributes kf r r' s s' a ha hr hs

/-- Claim C8 counterexample: the two runs differ only in the attribute "name",
which is absent from the descriptor's attribute list ["size"] — yet "name" is
the identity-key field, so the first run reports a Snowflake-only presence
drift for "wh1" while the second reports nothing. -/
theorem compare_resources_extra_attrs_counterexample :
    compare_resources ⟨Option.some []⟩ [[("name", Option.some "wh1")]]
        "warehouse" ["size"] []
      ≠ compare_resources ⟨Option.some []⟩ [[]] "warehouse" ["size"] [] := by
  decide

/-- Claim C8 (amended): two invocations whose inputs agree on the identity-key
field and on every attribute in the descriptor's list — i.e. differ only in
extra attributes that are absent from the descriptor's list and distinct from
the key field — produce identical outputs. -/
theorem compare_resources_extra_attrs_irrelevant (resource : String)
    (attributes : List String) (syn : SynTable) (tf_state tf_state2 : TfState)
    (sf_resources sf_resources2 : List Rec)
    (hstate : stateAgree attributes (key_field resource) tf_state tf_state2 = true)
    (hsf : listRel (recAgree attributes (key_field resource))
      sf_resources sf_resources2 = true) :
    compare_resources tf_state sf_resources resource attributes syn
      = compare_resources tf_state2 sf_resources2 resource attributes syn := by
  have htm : listRel (entryAgree attributes (key_field resource))
      (tf_res_map tf_state resource) (tf_res_map tf_state2 resource) = true := by
    rw [tf_res_map, tf_res_map, buildMap, buildMap]
    exact buildMap_entryAgree attributes (key_field resource) _ _ [] []
      (listRel_extract attributes (key_field resource)
        (tf_resource_type resource) tf_state tf_state2 hstate) rfl
  have hsm : listRel (entryAgree attributes (key_field resource))
      (sf_res_map sf_resources resource) (sf_res_map sf_resources2 resource)
      = true := by
    rw [sf_res_map, sf_res_map, buildMap, buildMap]
    exact buildMap_entryAgree attributes (key_field resource) _ _ [] [] hsf rfl
  have hfst1 : (tf_res_map tf_state resource).map Prod.fst
      = (tf_res_map tf_state2 resource).map Prod.fst :=
    map_fst_entryAgree attributes (key_field resource) _ _ htm
  have hfst2 : (sf_res_map sf_resources resource).map Prod.fst
      = (sf_res_map sf_resources2 resource).map Prod.fst :=
    map_fst_entryAgree attributes (key_field resource) _ _ hsm
  have hfun : compare_key resource (tf_resource_type resource) attributes syn
      (tf_res_map tf_state resource) (sf_res_map sf_resources resource)
      = compare_key resource (tf_resource_type resource) attributes syn
        (tf_res_map tf_state2 resource) (sf_res_map sf_resources2 resource) :=
    funext fun k => compare_key_agree resource (tf_resource_type resource)
      attributes syn (key_field resource) _ _ _ _ k htm hsm
  simp only [compare_resources, hfst1, hfst2, hfun]

/-- Witness for C8 (amended) at a concrete pair of runs: the observed records
differ only in the extra attribute "comment", which is neither the key field
"name" nor in the descriptor's list ["size"], and the outputs coincide. -/
theorem compare_resources_extra_attrs_irrelevant_witness :
    compare_resources ⟨Option.some []⟩
        [[("name", Option.some "wh1"), ("size", Option.some "XS"),
          ("comment", Option.some "x")]] "warehouse" ["size"] []
      = compare_resources ⟨Option.some []⟩
        [[("name", Option.some "wh1"), ("size", Option.some "XS")]]
        "warehouse" ["size"] [] :=
  compare_resources_extra_attrs_irrelevant "warehouse" ["size"] []
    ⟨Option.some []⟩ ⟨Option.some []⟩
    [[("name", Option.some "wh1"), ("size", Option.some "XS"),
      ("comment", Option.some "x")]]
    [[("name", Option.some "wh1"), ("size", Option.some "XS")]]
    (by decide) (by decide)
